import Mathlib

/-!
Shallow embedding of the `wizardloong/dungeongame` backend, for checking the
repository's specification claims.

The repository contains three generations of the same Node.js server:
* `src/unnamed/part_000` — the earliest draft (no debug mode, case-sensitive
  level-complete check, `say` as a pure chat branch);
* `src/app/index.js` — the middle draft (debug mode, `say` as a pure chat
  branch);
* `src/unnamed/part_001` — the final, memory-aware draft (level goals,
  game memory, summarization; `say` falls through into the game-action
  pipeline).

The embedding below translates the room state, the socket event handlers and
the helper functions of the final draft (`part_001`), plus the specific spots
of the older drafts that the claims cite.  JavaScript strings are modelled as
Lean `String` (all literals involved are plain BMP text, so code-unit slicing
and char slicing agree); the in-place mutations of the single-threaded server
become pure state-passing functions; the nondeterministic outside world (LLM
replies, image-generation results, `Date.now()`) is supplied through an
explicit `Oracle` record, and "an outbound network call happened" is an
explicit boolean component of the adapters' results.
-/

set_option maxHeartbeats 1000000
set_option linter.unnecessarySeqFocus false
set_option maxRecDepth 100000

namespace DungeonGame

/-- JS `s.slice(0, n)` (truncation of a string to its first `n` units). -/
def jsSlice (s : String) (n : Nat) : String := ⟨s.data.take n⟩

/-- JS `s.toLowerCase()`, restricted to the ASCII range that matters for the
`'level complete'` marker search (`Char.toLower` lowers exactly the Latin
letters `A`–`Z`; Cyrillic letters pass through unchanged, which cannot create
or destroy an occurrence of the ASCII needle). -/
def asciiLower (s : String) : String := ⟨s.data.map Char.toLower⟩

/-- Does the character sequence start with the given needle? -/
def seqMatchesAt : List Char → List Char → Bool
  | _, [] => true
  | [], _ :: _ => false
  | a :: hay, b :: nd => a == b && seqMatchesAt hay nd

/-- Does the character sequence contain the needle as a contiguous run? -/
def seqContains : List Char → List Char → Bool
  | [], needle => needle.isEmpty
  | a :: hay, needle => seqMatchesAt (a :: hay) needle || seqContains hay needle

/-- JS `hay.includes(needle)`. -/
def jsIncludes (hay needle : String) : Bool := seqContains hay.data needle.data

/-- `gmResponse.toLowerCase().includes('level complete')` — the final draft's
case-insensitive level-completion marker test (`part_001` line 479). -/
def hasLevelCompleteCI (s : String) : Bool := jsIncludes (asciiLower s) "level complete"

/-- JS `x || dflt` on strings (empty string is falsy). -/
def jsOr (x dflt : String) : String := if x == "" then dflt else x

/-- `Turn` models `room.state.turn`: either the string sentinel `'gm'` or a
1-based player number. -/
inductive Turn where
  | gm
  | player (n : Nat)
deriving DecidableEq, Repr

/-- One entry of `room.state.gameMemory`. -/
structure MemoryEntry where
  level : Nat
  summary : String
  timestamp : Nat
deriving DecidableEq, Repr

/-- `room.state` of the final draft (`part_001` lines 152–159).  The older
drafts use the subset `{level, turn, history}`; the extra fields are simply
unused there. -/
structure GameState where
  level : Nat
  turn : Turn
  history : List String
  levelGoals : List (Nat × String)
  gameMemory : List MemoryEntry
  levelMemory : String
deriving DecidableEq, Repr

/-- A connected socket, as far as the room logic reads it. -/
structure PlayerHandle where
  id : String
  username : String
deriving DecidableEq, Repr

/-- A room: seated sockets (order = turn order) plus game state. -/
structure Room where
  players : List PlayerHandle
  state : GameState
deriving DecidableEq, Repr

/-- The fresh state every created room starts with. -/
def initialState : GameState :=
  { level := 1, turn := Turn.gm, history := [], levelGoals := [],
    gameMemory := [], levelMemory := "" }

/-- Outbound socket.io events, as far as the claims observe them. -/
inductive Event where
  | error (msg : String)
  | roomCreated (roomId : String)
  | playersUpdate (names : List String)
  | playerLeft (name : String)
  | sayMessage (sender text : String)
  | gameStart (text image : String)
  | gmUpdate (text image : String)
  | playerTurn (n : Nat)
  | gmTurn
  | levelComplete (level : Nat) (goal : String)
  | gameEnd
deriving DecidableEq, Repr

/-- The nondeterministic environment of one asynchronous pass: the three
`fetchMistral` helper results (empty string = the helper's internal
catch-and-return-empty), the main chat-completion result (`none` = network
error or non-ok HTTP status), the image URL the image adapter produced, and
`Date.now()`. -/
structure Oracle where
  goalResp : String
  summaryResp : String
  compressResp : String
  chatResp : Option String
  imageUrl : String
  now : Nat
deriving DecidableEq, Repr

/-- `getRequiredPlayersCount()` (`part_001` line 348). -/
def requiredPlayers (debugMode : Bool) : Nat := if debugMode then 1 else 3

-- Exact literals of `part_001`.

/-- The FAST_DEBUG canned initial narration (`part_001` line 398). -/
def cannedInitial : String :=
  "Перед вами темный вход в древнее подземелье. Массивные каменные двери покрыты рунами и мхом. Холодный воздух веет из черного проема. Слышны странные звуки из глубины."

/-- The FAST_DEBUG canned non-initial narration (`part_001` line 399). -/
def cannedProgress : String :=
  "Вы продвигаетесь глубже. Факелы на стенах горят синим пламенем, освещая мрачный коридор. Впереди виднеется развилка путей и слышно тихое рычание."

/-- The narration returned when the Mistral call fails (`part_001` line 446);
the spec glosses it as "The game master pauses thoughtfully... continue your
journey." -/
def gmFallback : String := "Мастер игры задумался... Продолжайте путешествие."

/-- Memory-compaction fallback (`part_001` line 615); the spec glosses it as
"Key events of the journey". -/
def compressFallback : String := "Ключевые события путешествия"

/-- History-summary fallback (`part_001` line 599); spec gloss: "Players are
moving forward". -/
def summaryFallback : String := "Игроки продвигаются вперед"

def msgNotYourTurn : String := "Сейчас не ваш ход"
def msgRoomFull : String := "Комната заполнена"
def msgRoomNotFound : String := "Комната не найдена"
def msgInsufficientPlayers : String := "Недостаточно игроков для начала игры"

/-- JS `Array.prototype.findIndex`, with `none` in place of `-1`. -/
def findIdxO (p : α → Bool) : List α → Option Nat
  | [] => none
  | x :: xs => if p x then some 0 else (findIdxO p xs).map (· + 1)

/-- `playerIndex + 1` of the action handler: the submitter's 1-based seat
number, or `0` when the submitter is not seated (JS `findIndex` = `-1`). -/
def seatNumber (room : Room) (senderId : String) : Nat :=
  match findIdxO (fun q => q.id == senderId) room.players with
  | some i => i + 1
  | none => 0

/-- `DEBUG_MODE || (room.state.turn === playerIndex + 1)` (`part_001` line 269). -/
def isValidTurn (debugMode : Bool) (room : Room) (senderId : String) : Bool :=
  debugMode || decide (room.state.turn = Turn.player (seatNumber room senderId))

/-- `generateImage(description)` (`part_001` lines 92–123).  Result: the URL
returned to the caller, paired with whether an outbound network call was made.
`hfOk` is whether the Hugging Face call (and the file write) succeeded. -/
def generateImage (fastDebug : Bool) (domain : String) (hfOk : Bool) (now : Nat) :
    String × Bool :=
  if fastDebug then (domain ++ "/fallback-image.png", false)
  else if hfOk then (domain ++ "/images/image_" ++ toString now ++ ".png", true)
  else (domain ++ "/fallback-image.png", true)

/-- `room.state.levelGoals[lvl]` (object indexing). -/
def lookupGoal (goals : List (Nat × String)) (lvl : Nat) : Option String :=
  (goals.find? (fun kv => kv.1 == lvl)).map (fun kv => kv.2)

/-- JS falsiness of `levelGoals[lvl]` (`undefined` or the empty string). -/
def goalFalsy (goals : List (Nat × String)) (lvl : Nat) : Bool :=
  match lookupGoal goals lvl with
  | none => true
  | some s => s == ""

/-- `levelGoals[lvl] = g` (object assignment). -/
def setGoal (goals : List (Nat × String)) (lvl : Nat) (g : String) :
    List (Nat × String) :=
  (lvl, g) :: goals.filter (fun kv => kv.1 != lvl)

/-- `updateGameMemory(room)` (`part_001` lines 574–627): level-goal
generation, history compaction (summary appended to `gameMemory`, `history`
trimmed to its last 2 entries), then memory compaction once `gameMemory`
exceeds 3 entries.  The three LLM sub-calls are `fetchMistral`, which returns
`""` on any failure; JS `response || fallback` is `jsOr`. -/
def updateGameMemory (fastDebug : Bool) (o : Oracle) (st : GameState) : GameState :=
  if fastDebug then
    if goalFalsy st.levelGoals st.level then
      { st with levelGoals :=
          setGoal st.levelGoals st.level ("Пройти уровень " ++ toString st.level) }
    else st
  else
    let goal := jsOr o.goalResp ("Исследовать уровень " ++ toString st.level)
    let st1 :=
      if goalFalsy st.levelGoals st.level then
        { st with levelGoals := setGoal st.levelGoals st.level goal }
      else st
    let st2 :=
      if st1.history.length > 4 then
        { st1 with
            gameMemory := st1.gameMemory ++
              [{ level := st1.level,
                 summary := jsOr o.summaryResp summaryFallback,
                 timestamp := o.now }],
            history := st1.history.drop (st1.history.length - 2) }
      else st1
    if st2.gameMemory.length > 3 then
      { st2 with gameMemory :=
          [{ level := st2.level,
             summary := jsOr o.compressResp compressFallback,
             timestamp := o.now }] }
    else st2

/-- `getGmResponse(room, isInitial)` of the final draft (`part_001` lines
392–448): FAST_DEBUG short-circuits to a canned narration with no state
change and no network call; otherwise `updateGameMemory` runs first and the
Mistral content is truncated to 250 characters, the fixed fallback being
returned when the call fails.  Result: (state after the call, returned text,
whether any outbound network call was made). -/
def getGmResponseFull (fastDebug isInitial : Bool) (o : Oracle) (st : GameState) :
    GameState × String × Bool :=
  if fastDebug then
    (st, (if isInitial then cannedInitial else cannedProgress), false)
  else
    let st' := updateGameMemory false o st
    match o.chatResp with
    | some content => (st', jsSlice content 250, true)
    | none => (st', gmFallback, true)

/-- `getGmResponse` of the middle draft (`src/app/index.js` lines 416–472):
same FAST_DEBUG/canned/truncate/fallback shape, but no memory update. -/
def getGmResponseMid (fastDebug isInitial : Bool) (apiResult : Option String) :
    String :=
  if fastDebug then (if isInitial then cannedInitial else cannedProgress)
  else
    match apiResult with
    | some content => jsSlice content 250
    | none => gmFallback

/-- The synchronous part of `nextTurn(roomId)` (`part_001` lines 451–549):
debug mode always hands the turn to the GM (the 2-second-delayed narration
pass is modelled as the separate `Op.gmStep` operation); standard mode
increments the numeric turn, going to the GM after the last player. -/
def nextTurnSync (debugMode : Bool) (room : Room) : Room × List Event :=
  if debugMode then
    ({ room with state := { room.state with turn := Turn.gm } }, [Event.gmTurn])
  else
    let currentTurn := match room.state.turn with
      | Turn.player n => n
      | Turn.gm => 0
    let c := currentTurn + 1
    if c > room.players.length then
      ({ room with state := { room.state with turn := Turn.gm } }, [Event.gmTurn])
    else
      ({ room with state := { room.state with turn := Turn.player c } },
       [Event.playerTurn c])

/-- The delayed GM narration pass of the final draft, shared by both `nextTurn`
branches (`part_001` lines 477–495), applied to a narration text that has
already been obtained: append `GM: …` to history; on a case-insensitive
`'level complete'` hit, bump the level, clear history and levelMemory and
emit `levelComplete {level, goal}`; then either emit `gameEnd` (level > 5) or
hand the turn back to player 1. -/
def gmNarrationCore (st : GameState) (gmResponse : String) : GameState × List Event :=
  let st1 := { st with history := st.history ++ ["GM: " ++ gmResponse] }
  let p :=
    if hasLevelCompleteCI gmResponse then
      let lvl := st1.level + 1
      let st' := { st1 with level := lvl, history := [], levelMemory := "" }
      let goal := jsOr ((lookupGoal st'.levelGoals lvl).getD "") "Новая цель будет определена"
      (st', [Event.levelComplete lvl goal])
    else (st1, ([] : List Event))
  if p.1.level > 5 then (p.1, p.2 ++ [Event.gameEnd])
  else ({ p.1 with turn := Turn.player 1 }, p.2 ++ [Event.playerTurn 1])

/-- The delayed GM pass of the earliest draft (`part_000` lines 123–131):
the `includes('level complete')` test is case-SENSITIVE, history is not
cleared, `gameEnd` may be emitted, and the turn is set back to 1
unconditionally (without a `playerTurn` broadcast). -/
def gmNarrationEarly (st : GameState) (gmResponse imageUrl : String) :
    GameState × List Event :=
  let st1 := { st with history := st.history ++ ["GM: " ++ gmResponse] }
  let st2 :=
    if jsIncludes gmResponse "level complete" then { st1 with level := st1.level + 1 }
    else st1
  let evs := if st2.level > 5 then [Event.gameEnd] else []
  ({ st2 with turn := Turn.player 1 }, Event.gmUpdate gmResponse imageUrl :: evs)

/-- The `socket.on('action')` handler of the final draft (`part_001` lines
259–302), for a room that was found.  Note the draft's shape: after the turn
check, `sayMessage` is broadcast for EVERY action type, and every action —
`say` included — falls through into the history-append / GM-narration /
`nextTurn` pipeline. -/
def actOnRoomFinal (debugMode fastDebug : Bool) (room : Room)
    (senderId senderName ty text : String) (o : Oracle) : Room × List Event :=
  if isValidTurn debugMode room senderId then
    let st1 := { room.state with
      history := room.state.history ++ [senderName ++ " " ++ ty ++ ": " ++ text] }
    let res := getGmResponseFull fastDebug false o st1
    let gmResp := res.2.1
    let st3 := { res.1 with history := res.1.history ++ ["GM: " ++ gmResp] }
    let nt := nextTurnSync debugMode { room with state := st3 }
    (nt.1, Event.sayMessage senderName text :: Event.gmUpdate gmResp o.imageUrl :: nt.2)
  else
    (room, [Event.error msgNotYourTurn])

/-- The `socket.on('action')` handler of the middle draft (`src/app/index.js`
lines 227–274): identical turn gate, but `say` is a pure chat broadcast
branch with no state change. -/
def actOnRoomMid (debugMode fastDebug : Bool) (room : Room)
    (senderId senderName ty text : String) (o : Oracle) : Room × List Event :=
  if isValidTurn debugMode room senderId then
    if ty == "say" then
      (room, [Event.sayMessage senderName text])
    else
      let st1 := { room.state with
        history := room.state.history ++ [senderName ++ " " ++ ty ++ ": " ++ text] }
      let gmResp := getGmResponseMid fastDebug false o.chatResp
      let st3 := { st1 with history := st1.history ++ ["GM: " ++ gmResp] }
      let nt := nextTurnSync debugMode { room with state := st3 }
      (nt.1, Event.gmUpdate gmResp o.imageUrl :: nt.2)
  else
    (room, [Event.error msgNotYourTurn])

/-- The process-wide `rooms` object, as an association list. -/
abbrev Registry := List (String × Room)

/-- `rooms[id]` lookup. -/
def findRoom (rooms : Registry) (id : String) : Option Room :=
  (rooms.find? (fun kv => kv.1 == id)).map (fun kv => kv.2)

/-- `delete rooms[id]`. -/
def removeRoom (rooms : Registry) (id : String) : Registry :=
  rooms.filter (fun kv => kv.1 != id)

/-- `rooms[id] = r` (assignment; representation puts the binding first). -/
def putRoom (rooms : Registry) (id : String) (r : Room) : Registry :=
  (id, r) :: removeRoom rooms id

/-- One server operation on the registry.  Each carries the environment
results (`Oracle`) its asynchronous continuation consumed.  `gmStep` is the
2-second-delayed GM narration pass scheduled by `nextTurn`; `timeout` is the
120-second waiting-for-players deadline. -/
inductive Op where
  | create (roomId : String) (p : PlayerHandle)
  | join (roomId : String) (p : PlayerHandle)
  | startGame (roomId : String) (o : Oracle)
  | act (roomId senderId senderName ty text : String) (o : Oracle)
  | gmStep (roomId : String) (o : Oracle)
  | disc (roomId : String) (pid : String)
  | timeout (roomId : String)
deriving DecidableEq, Repr

/-- One step of the final draft's server (`part_001`), as a function from a
registry and an operation to the new registry and the emitted events.
`create` models the accepted path of `socket.on('createRoom')` (the
already-in-a-room rejection leaves the registry untouched); `join` models
`socket.on('joinRoom')` including its create-when-missing branch; `act`
models `socket.on('action')`; `disc` models `socket.on('disconnect')` (whose
state mutations all precede the draft's unrelated broken `playersUpdate`
reference on line 331). -/
def step (debugMode fastDebug : Bool) (rooms : Registry) : Op → Registry × List Event
  | Op.create roomId p =>
      (putRoom rooms roomId { players := [p], state := initialState },
       [Event.roomCreated roomId])
  | Op.join roomId p =>
      match findRoom rooms roomId with
      | none =>
          (putRoom rooms roomId { players := [p], state := initialState },
           [Event.playersUpdate [p.username]])
      | some room =>
          if room.players.length ≥ requiredPlayers debugMode ∧
             room.players.any (fun q => q.id == p.id) = false then
            (rooms, [Event.error msgRoomFull])
          else
            let players' :=
              if room.players.any (fun q => q.id == p.id) then
                room.players.map (fun q =>
                  if q.id == p.id then { q with username := p.username } else q)
              else room.players ++ [p]
            (putRoom rooms roomId { room with players := players' },
             [Event.playersUpdate
                ((players'.map (fun q => q.username)).filter (fun s => s != ""))])
  | Op.startGame roomId o =>
      match findRoom rooms roomId with
      | none => (rooms, [])
      | some room =>
          let res := getGmResponseFull fastDebug true o room.state
          let text0 := res.2.1
          let st2 := { res.1 with
            history := res.1.history ++ ["GM: " ++ text0], turn := Turn.player 1 }
          (putRoom rooms roomId { room with state := st2 },
           [Event.gameStart text0 o.imageUrl, Event.playerTurn 1])
  | Op.act roomId senderId senderName ty text o =>
      match findRoom rooms roomId with
      | none => (rooms, [Event.error msgRoomNotFound])
      | some room =>
          let res := actOnRoomFinal debugMode fastDebug room senderId senderName ty text o
          (putRoom rooms roomId res.1, res.2)
  | Op.gmStep roomId o =>
      match findRoom rooms roomId with
      | none => (rooms, [])
      | some room =>
          let res := getGmResponseFull fastDebug false o room.state
          let gmResp := res.2.1
          let core := gmNarrationCore res.1 gmResp
          (putRoom rooms roomId { room with state := core.1 },
           Event.gmUpdate gmResp o.imageUrl :: core.2)
  | Op.disc roomId pid =>
      match findRoom rooms roomId with
      | none => (rooms, [])
      | some room =>
          match findIdxO (fun q => q.id == pid) room.players with
          | none => (rooms, [])
          | some i =>
              let players' := room.players.eraseIdx i
              let name := match room.players.get? i with
                | some q => q.username
                | none => ""
              let evs0 := if name != "" then [Event.playerLeft name] else []
              if players'.length > 0 then
                (putRoom rooms roomId { room with players := players' },
                 evs0 ++ [Event.playersUpdate
                   ((players'.map (fun q => q.username)).filter (fun s => s != ""))])
              else
                (removeRoom rooms roomId, evs0)
  | Op.timeout roomId =>
      match findRoom rooms roomId with
      | none => (rooms, [])
      | some room =>
          if room.players.length < requiredPlayers debugMode then
            (removeRoom rooms roomId, [Event.error msgInsufficientPlayers])
          else (rooms, [])

/-- Run a sequence of operations (events discarded). -/
def runOps (debugMode fastDebug : Bool) (rooms : Registry) : List Op → Registry
  | [] => rooms
  | op :: rest => runOps debugMode fastDebug (step debugMode fastDebug rooms op).1 rest

/-- The room `id` exists before every operation of the trace and after the
last one. -/
def presentAlong (debugMode fastDebug : Bool) (id : String) :
    Registry → List Op → Bool
  | rooms, [] => (findRoom rooms id).isSome
  | rooms, op :: rest =>
      (findRoom rooms id).isSome &&
      presentAlong debugMode fastDebug id (step debugMode fastDebug rooms op).1 rest

/-- `op` is not a `create` targeting `id` (creation overwrites an id with a
brand-new room, which is a different room under the same key). -/
def notCreateAt (id : String) : Op → Bool
  | Op.create roomId _ => roomId != id
  | _ => true

/-- `op` is not a GM narration pass on `id`. -/
def notGmStepAt (id : String) : Op → Bool
  | Op.gmStep roomId _ => roomId != id
  | _ => true

/-- Capacity invariant: every registered room is within the configured
player capacity. -/
def capOk (debugMode : Bool) (rooms : Registry) : Prop :=
  ∀ pr ∈ rooms, pr.2.players.length ≤ requiredPlayers debugMode

/-- Liveness invariant: every registered room has at least one player. -/
def nonemptyOk (rooms : Registry) : Prop :=
  ∀ pr ∈ rooms, pr.2.players ≠ []

-- Concrete fixtures used to instantiate theorems on closed inputs.

def alice : PlayerHandle := { id := "s1", username := "Alice" }

def bob : PlayerHandle := { id := "s2", username := "Bob" }

def carol : PlayerHandle := { id := "s3", username := "Carol" }

def quietOracle : Oracle :=
  { goalResp := "", summaryResp := "", compressResp := "", chatResp := none,
    imageUrl := "img", now := 7 }

/-! ### Registry lemmas -/

theorem find_filter_ne (rooms : Registry) (id idCut : String) (h : id ≠ idCut) :
    (rooms.filter (fun kv => kv.1 != idCut)).find? (fun kv => kv.1 == id)
      = rooms.find? (fun kv => kv.1 == id) := by
  induction rooms with
  | nil => rfl
  | cons kv rest ih =>
    by_cases hk : kv.1 = idCut
    · have h1 : (kv.1 != idCut) = false := by simp [hk]
      have h2 : (kv.1 == id) = false := by
        simp only [beq_eq_false_iff_ne, ne_eq]
        intro e
        exact h (e ▸ hk)
      simp [List.filter_cons, h1, List.find?_cons, h2, ih]
    · have h1 : (kv.1 != idCut) = true := by simp [hk]
      by_cases h2 : kv.1 = id
      · simp [List.filter_cons, h1, List.find?_cons, h2, h]
      · have h3 : (kv.1 == id) = false := by simp [h2]
        simp [List.filter_cons, h1, List.find?_cons, h3, ih]

theorem findRoom_removeRoom_self (rooms : Registry) (id : String) :
    findRoom (removeRoom rooms id) id = none := by
  unfold findRoom removeRoom
  have : (rooms.filter (fun kv => kv.1 != id)).find? (fun kv => kv.1 == id) = none := by
    rw [List.find?_eq_none]
    intro kv hkv
    have := (List.mem_filter.mp hkv).2
    simpa using this
  simp [this]

theorem findRoom_removeRoom_ne (rooms : Registry) (id idCut : String) (h : id ≠ idCut) :
    findRoom (removeRoom rooms idCut) id = findRoom rooms id := by
  unfold findRoom removeRoom
  rw [find_filter_ne rooms id idCut h]

theorem findRoom_putRoom_self (rooms : Registry) (id : String) (r : Room) :
    findRoom (putRoom rooms id r) id = some r := by
  unfold findRoom putRoom
  simp [List.find?_cons]

theorem findRoom_putRoom_ne (rooms : Registry) (id idPut : String) (r : Room)
    (h : id ≠ idPut) :
    findRoom (putRoom rooms idPut r) id = findRoom rooms id := by
  unfold putRoom
  have hne : ((idPut, r).1 == id) = false := by
    simp only [beq_eq_false_iff_ne, ne_eq]
    intro e
    exact h e.symm
  unfold findRoom
  rw [List.find?_cons_of_neg _ (by simp [hne])]
  exact findRoom_removeRoom_ne rooms id idPut h

theorem mem_removeRoom (rooms : Registry) (id : String) (pr : String × Room)
    (h : pr ∈ removeRoom rooms id) : pr ∈ rooms :=
  (List.mem_filter.mp h).1

theorem mem_putRoom (rooms : Registry) (id : String) (r : Room) (pr : String × Room)
    (h : pr ∈ putRoom rooms id r) : pr = (id, r) ∨ pr ∈ rooms := by
  rcases List.mem_cons.mp h with h1 | h2
  · exact Or.inl h1
  · exact Or.inr (mem_removeRoom rooms id pr h2)

theorem findRoom_mem (rooms : Registry) (id : String) (r : Room)
    (h : findRoom rooms id = some r) : (id, r) ∈ rooms := by
  unfold findRoom at h
  rcases Option.map_eq_some'.mp h with ⟨kv, hfind, hsnd⟩
  have hmem := List.mem_of_find?_eq_some hfind
  have hfst : kv.1 = id := by
    have := List.find?_some hfind
    simpa using this
  have : kv = (id, r) := by
    cases kv
    simp_all
  exact this ▸ hmem

/-! ### Field-preservation lemmas -/

theorem updateGameMemory_level (fd : Bool) (o : Oracle) (st : GameState) :
    (updateGameMemory fd o st).level = st.level := by
  simp only [updateGameMemory]
  split
  · split <;> rfl
  · split <;> split <;> split <;> rfl

theorem getGmResponseFull_level (fd isInitial : Bool) (o : Oracle) (st : GameState) :
    (getGmResponseFull fd isInitial o st).1.level = st.level := by
  simp only [getGmResponseFull]
  split
  · rfl
  · split <;> simp [updateGameMemory_level]

theorem nextTurnSync_level (dm : Bool) (room : Room) :
    ((nextTurnSync dm room).1).state.level = room.state.level := by
  simp only [nextTurnSync]
  split
  · rfl
  · split <;> rfl

theorem nextTurnSync_players (dm : Bool) (room : Room) :
    ((nextTurnSync dm room).1).players = room.players := by
  simp only [nextTurnSync]
  split
  · rfl
  · split <;> rfl

theorem actOnRoomFinal_level (dm fd : Bool) (room : Room)
    (sid sname ty text : String) (o : Oracle) :
    ((actOnRoomFinal dm fd room sid sname ty text o).1).state.level
      = room.state.level := by
  simp only [actOnRoomFinal]
  split
  · rw [nextTurnSync_level]
    simp [getGmResponseFull_level]
  · rfl

theorem actOnRoomFinal_players (dm fd : Bool) (room : Room)
    (sid sname ty text : String) (o : Oracle) :
    ((actOnRoomFinal dm fd room sid sname ty text o).1).players
      = room.players := by
  simp only [actOnRoomFinal]
  split
  · rw [nextTurnSync_players]
  · rfl

theorem gmNarrationCore_level (st : GameState) (g : String) :
    (gmNarrationCore st g).1.level
      = st.level + (if hasLevelCompleteCI g then 1 else 0) := by
  unfold gmNarrationCore
  by_cases hm : hasLevelCompleteCI g <;> simp only [hm, if_true, if_false] <;>
    (repeat' split) <;> simp_all

theorem gmNarrationEarly_level (st : GameState) (g img : String) :
    (gmNarrationEarly st g img).1.level
      = st.level + (if jsIncludes g "level complete" then 1 else 0) := by
  unfold gmNarrationEarly
  by_cases hm : jsIncludes g "level complete" <;> simp only [hm, if_true, if_false] <;>
    (repeat' split) <;> simp_all

theorem some_inj_room {r r' : Room} (h : some r = some r') : r' = r :=
  (Option.some.inj h).symm

/-- Master case analysis: a single operation either leaves a surviving room's
level alone, or is a GM narration pass on that room (level moves by the
marker test), or is a `create` overwriting that id with a brand-new room. -/
theorem step_level_cases (dm fd : Bool) (rooms : Registry) (op : Op) (id : String)
    (r r' : Room)
    (hb : findRoom rooms id = some r)
    (ha : findRoom (step dm fd rooms op).1 id = some r') :
    r'.state.level = r.state.level ∨
    (∃ o, op = Op.gmStep id o ∧
       r'.state.level = r.state.level +
         (if hasLevelCompleteCI (getGmResponseFull fd false o r.state).2.1
          then 1 else 0)) ∨
    (∃ p, op = Op.create id p) := by
  cases op with
  | create roomId p =>
      by_cases hid : id = roomId
      · subst hid
        exact Or.inr (Or.inr ⟨p, rfl⟩)
      · simp only [step] at ha
        rw [findRoom_putRoom_ne _ _ _ _ hid] at ha
        rw [hb] at ha
        exact Or.inl (congrArg (fun x => x.state.level) (some_inj_room ha))
  | join roomId p =>
      cases hf : findRoom rooms roomId with
      | none =>
          simp only [step, hf] at ha
          by_cases hid : id = roomId
          · subst hid
            rw [hb] at hf
            cases hf
          · rw [findRoom_putRoom_ne _ _ _ _ hid] at ha
            rw [hb] at ha
            exact Or.inl (congrArg (fun x => x.state.level) (some_inj_room ha))
      | some room =>
          simp only [step, hf] at ha
          split at ha
          · rw [hb] at ha
            exact Or.inl (congrArg (fun x => x.state.level) (some_inj_room ha))
          · by_cases hid : id = roomId
            · subst hid
              rw [findRoom_putRoom_self] at ha
              have hroom : room = r := by
                rw [hb] at hf
                exact (Option.some.inj hf).symm
              have hr' := some_inj_room ha.symm
              subst hroom
              exact Or.inl (by rw [← hr'])
            · rw [findRoom_putRoom_ne _ _ _ _ hid] at ha
              rw [hb] at ha
              exact Or.inl (congrArg (fun x => x.state.level) (some_inj_room ha))
  | startGame roomId o =>
      cases hf : findRoom rooms roomId with
      | none =>
          simp only [step, hf] at ha
          rw [hb] at ha
          exact Or.inl (congrArg (fun x => x.state.level) (some_inj_room ha))
      | some room =>
          simp only [step, hf] at ha
          by_cases hid : id = roomId
          · subst hid
            rw [findRoom_putRoom_self] at ha
            have hroom : room = r := by
              rw [hb] at hf
              exact (Option.some.inj hf).symm
            have hr' := some_inj_room ha.symm
            subst hroom
            exact Or.inl (by rw [← hr']; exact getGmResponseFull_level fd true o room.state)
          · rw [findRoom_putRoom_ne _ _ _ _ hid] at ha
            rw [hb] at ha
            exact Or.inl (congrArg (fun x => x.state.level) (some_inj_room ha))
  | act roomId sid sname ty text o =>
      cases hf : findRoom rooms roomId with
      | none =>
          simp only [step, hf] at ha
          rw [hb] at ha
          exact Or.inl (congrArg (fun x => x.state.level) (some_inj_room ha))
      | some room =>
          simp only [step, hf] at ha
          by_cases hid : id = roomId
          · subst hid
            rw [findRoom_putRoom_self] at ha
            have hroom : room = r := by
              rw [hb] at hf
              exact (Option.some.inj hf).symm
            have hr' := some_inj_room ha.symm
            subst hroom
            exact Or.inl (by rw [← hr']; exact actOnRoomFinal_level dm fd room sid sname ty text o)
          · rw [findRoom_putRoom_ne _ _ _ _ hid] at ha
            rw [hb] at ha
            exact Or.inl (congrArg (fun x => x.state.level) (some_inj_room ha))
  | gmStep roomId o =>
      cases hf : findRoom rooms roomId with
      | none =>
          simp only [step, hf] at ha
          rw [hb] at ha
          exact Or.inl (congrArg (fun x => x.state.level) (some_inj_room ha))
      | some room =>
          simp only [step, hf] at ha
          by_cases hid : id = roomId
          · subst hid
            rw [findRoom_putRoom_self] at ha
            have hroom : room = r := by
              rw [hb] at hf
              exact (Option.some.inj hf).symm
            have hr' := some_inj_room ha.symm
            subst hroom
            refine Or.inr (Or.inl ⟨o, rfl, ?_⟩)
            rw [← hr']
            show (gmNarrationCore (getGmResponseFull fd false o room.state).1
               (getGmResponseFull fd false o room.state).2.1).1.level = _
            rw [gmNarrationCore_level, getGmResponseFull_level]
          · rw [findRoom_putRoom_ne _ _ _ _ hid] at ha
            rw [hb] at ha
            exact Or.inl (congrArg (fun x => x.state.level) (some_inj_room ha))
  | disc roomId pid =>
      cases hf : findRoom rooms roomId with
      | none =>
          simp only [step, hf] at ha
          rw [hb] at ha
          exact Or.inl (congrArg (fun x => x.state.level) (some_inj_room ha))
      | some room =>
          cases hidx : findIdxO (fun q => q.id == pid) room.players with
          | none =>
              simp only [step, hf, hidx] at ha
              rw [hb] at ha
              exact Or.inl (congrArg (fun x => x.state.level) (some_inj_room ha))
          | some i =>
              simp only [step, hf, hidx] at ha
              split at ha
              · by_cases hid : id = roomId
                · subst hid
                  rw [findRoom_putRoom_self] at ha
                  have hroom : room = r := by
                    rw [hb] at hf
                    exact (Option.some.inj hf).symm
                  have hr' := some_inj_room ha.symm
                  subst hroom
                  exact Or.inl (by rw [← hr'])
                · rw [findRoom_putRoom_ne _ _ _ _ hid] at ha
                  rw [hb] at ha
                  exact Or.inl (congrArg (fun x => x.state.level) (some_inj_room ha))
              · by_cases hid : id = roomId
                · subst hid
                  rw [findRoom_removeRoom_self] at ha
                  cases ha
                · rw [findRoom_removeRoom_ne _ _ _ hid] at ha
                  rw [hb] at ha
                  exact Or.inl (congrArg (fun x => x.state.level) (some_inj_room ha))
  | timeout roomId =>
      cases hf : findRoom rooms roomId with
      | none =>
          simp only [step, hf] at ha
          rw [hb] at ha
          exact Or.inl (congrArg (fun x => x.state.level) (some_inj_room ha))
      | some room =>
          simp only [step, hf] at ha
          split at ha
          · by_cases hid : id = roomId
            · subst hid
              rw [findRoom_removeRoom_self] at ha
              cases ha
            · rw [findRoom_removeRoom_ne _ _ _ hid] at ha
              rw [hb] at ha
              exact Or.inl (congrArg (fun x => x.state.level) (some_inj_room ha))
          · rw [hb] at ha
            exact Or.inl (congrArg (fun x => x.state.level) (some_inj_room ha))

/-! ### Invariant preservation -/

theorem one_le_requiredPlayers (dm : Bool) : 1 ≤ requiredPlayers dm := by
  cases dm <;> simp [requiredPlayers]

theorem eraseIdx_length_le (l : List α) (i : Nat) : (l.eraseIdx i).length ≤ l.length := by
  induction l generalizing i with
  | nil => simp [List.eraseIdx]
  | cons x xs ih =>
      cases i with
      | zero => simp [List.eraseIdx]
      | succ j =>
          simp only [List.eraseIdx, List.length_cons]
          exact Nat.succ_le_succ (ih j)

theorem step_capOk (dm fd : Bool) (rooms : Registry) (op : Op)
    (hc : capOk dm rooms) : capOk dm (step dm fd rooms op).1 := by
  have hreq := one_le_requiredPlayers dm
  cases op with
  | create roomId p =>
      intro pr hpr
      rcases mem_putRoom _ _ _ _ hpr with rfl | hmem
      · simpa using hreq
      · exact hc _ hmem
  | join roomId p =>
      cases hf : findRoom rooms roomId with
      | none =>
          intro pr hpr
          simp only [step, hf] at hpr
          rcases mem_putRoom _ _ _ _ hpr with rfl | hmem
          · simpa using hreq
          · exact hc _ hmem
      | some room =>
          have hroom := hc _ (findRoom_mem _ _ _ hf)
          intro pr hpr
          simp only [step, hf] at hpr
          split at hpr
          · exact hc _ hpr
          · rename_i hcond
            rcases mem_putRoom _ _ _ _ hpr with rfl | hmem
            · cases hany : room.players.any (fun q => q.id == p.id) with
              | true => simpa [hany] using hroom
              | false =>
                  have hlt : ¬ room.players.length ≥ requiredPlayers dm := by
                    intro hge
                    exact hcond ⟨hge, hany⟩
                  simp only [hany, Bool.false_eq_true, if_false, List.length_append,
                    List.length_cons, List.length_nil]
                  omega
            · exact hc _ hmem
  | startGame roomId o =>
      cases hf : findRoom rooms roomId with
      | none => simpa [step, hf] using hc
      | some room =>
          have hroom := hc _ (findRoom_mem _ _ _ hf)
          intro pr hpr
          simp only [step, hf] at hpr
          rcases mem_putRoom _ _ _ _ hpr with rfl | hmem
          · simpa using hroom
          · exact hc _ hmem
  | act roomId sid sname ty text o =>
      cases hf : findRoom rooms roomId with
      | none => simpa [step, hf] using hc
      | some room =>
          have hroom := hc _ (findRoom_mem _ _ _ hf)
          intro pr hpr
          simp only [step, hf] at hpr
          rcases mem_putRoom _ _ _ _ hpr with rfl | hmem
          · simpa [actOnRoomFinal_players] using hroom
          · exact hc _ hmem
  | gmStep roomId o =>
      cases hf : findRoom rooms roomId with
      | none => simpa [step, hf] using hc
      | some room =>
          have hroom := hc _ (findRoom_mem _ _ _ hf)
          intro pr hpr
          simp only [step, hf] at hpr
          rcases mem_putRoom _ _ _ _ hpr with rfl | hmem
          · simpa using hroom
          · exact hc _ hmem
  | disc roomId pid =>
      cases hf : findRoom rooms roomId with
      | none => simpa [step, hf] using hc
      | some room =>
          have hroom := hc _ (findRoom_mem _ _ _ hf)
          cases hidx : findIdxO (fun q => q.id == pid) room.players with
          | none => simpa [step, hf, hidx] using hc
          | some i =>
              intro pr hpr
              simp only [step, hf, hidx] at hpr
              split at hpr
              · rcases mem_putRoom _ _ _ _ hpr with rfl | hmem
                · calc (room.players.eraseIdx i).length
                      ≤ room.players.length := eraseIdx_length_le room.players i
                    _ ≤ requiredPlayers dm := hroom
                · exact hc _ hmem
              · exact hc _ (mem_removeRoom _ _ _ hpr)
  | timeout roomId =>
      cases hf : findRoom rooms roomId with
      | none => simpa [step, hf] using hc
      | some room =>
          intro pr hpr
          simp only [step, hf] at hpr
          split at hpr
          · exact hc _ (mem_removeRoom _ _ _ hpr)
          · exact hc _ hpr

theorem step_nonemptyOk (dm fd : Bool) (rooms : Registry) (op : Op)
    (hc : nonemptyOk rooms) : nonemptyOk (step dm fd rooms op).1 := by
  cases op with
  | create roomId p =>
      intro pr hpr
      rcases mem_putRoom _ _ _ _ hpr with rfl | hmem
      · simp
      · exact hc _ hmem
  | join roomId p =>
      cases hf : findRoom rooms roomId with
      | none =>
          intro pr hpr
          simp only [step, hf] at hpr
          rcases mem_putRoom _ _ _ _ hpr with rfl | hmem
          · simp
          · exact hc _ hmem
      | some room =>
          have hroom := hc _ (findRoom_mem _ _ _ hf)
          intro pr hpr
          simp only [step, hf] at hpr
          split at hpr
          · exact hc _ hpr
          · rcases mem_putRoom _ _ _ _ hpr with rfl | hmem
            · by_cases hany : room.players.any (fun q => q.id == p.id)
              · simp only [hany, if_true]
                intro hnil
                exact hroom (List.map_eq_nil_iff.mp hnil)
              · simp only [hany, if_false]
                simp
            · exact hc _ hmem
  | startGame roomId o =>
      cases hf : findRoom rooms roomId with
      | none => simpa [step, hf] using hc
      | some room =>
          have hroom := hc _ (findRoom_mem _ _ _ hf)
          intro pr hpr
          simp only [step, hf] at hpr
          rcases mem_putRoom _ _ _ _ hpr with rfl | hmem
          · simpa using hroom
          · exact hc _ hmem
  | act roomId sid sname ty text o =>
      cases hf : findRoom rooms roomId with
      | none => simpa [step, hf] using hc
      | some room =>
          have hroom := hc _ (findRoom_mem _ _ _ hf)
          intro pr hpr
          simp only [step, hf] at hpr
          rcases mem_putRoom _ _ _ _ hpr with rfl | hmem
          · simpa [actOnRoomFinal_players] using hroom
          · exact hc _ hmem
  | gmStep roomId o =>
      cases hf : findRoom rooms roomId with
      | none => simpa [step, hf] using hc
      | some room =>
          have hroom := hc _ (findRoom_mem _ _ _ hf)
          intro pr hpr
          simp only [step, hf] at hpr
          rcases mem_putRoom _ _ _ _ hpr with rfl | hmem
          · simpa using hroom
          · exact hc _ hmem
  | disc roomId pid =>
      cases hf : findRoom rooms roomId with
      | none => simpa [step, hf] using hc
      | some room =>
          cases hidx : findIdxO (fun q => q.id == pid) room.players with
          | none => simpa [step, hf, hidx] using hc
          | some i =>
              intro pr hpr
              simp only [step, hf, hidx] at hpr
              split at hpr
              · rename_i hlen
                rcases mem_putRoom _ _ _ _ hpr with rfl | hmem
                · intro hnil
                  have hnil2 : room.players.eraseIdx i = [] := hnil
                  rw [hnil2] at hlen
                  simp at hlen
                · exact hc _ hmem
              · exact hc _ (mem_removeRoom _ _ _ hpr)
  | timeout roomId =>
      cases hf : findRoom rooms roomId with
      | none => simpa [step, hf] using hc
      | some room =>
          intro pr hpr
          simp only [step, hf] at hpr
          split at hpr
          · exact hc _ (mem_removeRoom _ _ _ hpr)
          · exact hc _ hpr

/-! ### findIdxO lemmas -/

theorem findIdxO_of_mem (l : List PlayerHandle) (pid : String)
    (h : pid ∈ l.map (fun q => q.id)) :
    ∃ i, findIdxO (fun q => q.id == pid) l = some i := by
  induction l with
  | nil => simp at h
  | cons x xs ih =>
      by_cases hx : x.id = pid
      · exact ⟨0, by simp [findIdxO, hx]⟩
      · have hmem : pid ∈ xs.map (fun q => q.id) := by
          rcases List.mem_map.mp h with ⟨q, hq, hqid⟩
          rcases List.mem_cons.mp hq with rfl | hq2
          · exact absurd hqid hx
          · exact List.mem_map.mpr ⟨q, hq2, hqid⟩
        rcases ih hmem with ⟨j, hj⟩
        refine ⟨j + 1, ?_⟩
        have hxb : (x.id == pid) = false := by simp [hx]
        simp [findIdxO, hxb, hj]

theorem eraseIdx_removes (l : List PlayerHandle) (pid : String) (i : Nat)
    (hnd : (l.map (fun q => q.id)).Nodup)
    (hf : findIdxO (fun q => q.id == pid) l = some i) :
    pid ∉ (l.eraseIdx i).map (fun q => q.id) ∧
    (l.eraseIdx i).length + 1 = l.length := by
  induction l generalizing i with
  | nil => simp [findIdxO] at hf
  | cons x xs ih =>
      by_cases hx : x.id = pid
      · have hf0 : findIdxO (fun q => q.id == pid) (x :: xs) = some 0 := by
          simp [findIdxO, hx]
        rw [hf0] at hf
        have hi : i = 0 := (Option.some.inj hf).symm
        subst hi
        have hxnot : x.id ∉ xs.map (fun q => q.id) := (List.nodup_cons.mp (by simpa using hnd)).1
        constructor
        · exact hx ▸ hxnot
        · simp [List.eraseIdx]
      · have hxb : (x.id == pid) = false := by simp [hx]
        have hfs : (findIdxO (fun q => q.id == pid) xs).map (· + 1) = some i := by
          simpa [findIdxO, hxb] using hf
        rcases Option.map_eq_some'.mp hfs with ⟨j, hj, hji⟩
        have hndt : (xs.map (fun q => q.id)).Nodup := (List.nodup_cons.mp (by simpa using hnd)).2
        rcases ih j hndt hj with ⟨hnot, hlen⟩
        subst hji
        constructor
        · simp only [List.eraseIdx, List.map_cons, List.mem_cons]
          rintro (h1 | h2)
          · exact hx h1.symm
          · exact hnot h2
        · simp only [List.eraseIdx, List.length_cons]
          omega

theorem findIdxO_of_get (l : List PlayerHandle) (sid : String) (i : Nat)
    (h : i < l.length)
    (hnd : (l.map (fun q => q.id)).Nodup)
    (hid : (l.get ⟨i, h⟩).id = sid) :
    findIdxO (fun q => q.id == sid) l = some i := by
  induction l generalizing i with
  | nil => cases h
  | cons x xs ih =>
      cases i with
      | zero =>
          simp only [List.get] at hid
          simp [findIdxO, hid]
      | succ j =>
          have hj : j < xs.length := Nat.lt_of_succ_lt_succ h
          have hget : (xs.get ⟨j, hj⟩).id = sid := by
            simpa [List.get] using hid
          have hmem : sid ∈ xs.map (fun q => q.id) := by
            rw [← hget]
            exact List.mem_map.mpr ⟨xs.get ⟨j, hj⟩, List.get_mem xs j hj, rfl⟩
          have hx : x.id ≠ sid := by
            intro e
            exact (List.nodup_cons.mp (by simpa using hnd)).1 (e ▸ hmem)
          have hxb : (x.id == sid) = false := by simp [hx]
          have hndt : (xs.map (fun q => q.id)).Nodup := (List.nodup_cons.mp (by simpa using hnd)).2
          simp [findIdxO, hxb, ih j hj hndt hget]

/-- `nextTurnSync` only emits turn events, never errors. -/
theorem nextTurnSync_no_error (dm : Bool) (room : Room) (m : String) :
    Event.error m ∉ (nextTurnSync dm room).2 := by
  unfold nextTurnSync
  split
  · simp
  · split <;> (dsimp only; split <;> simp)

/-! ### Level bounds per step, and along traces -/

theorem step_level_le (dm fd : Bool) (rooms : Registry) (op : Op) (id : String)
    (r r' : Room) (hnc : notCreateAt id op = true)
    (hb : findRoom rooms id = some r)
    (ha : findRoom (step dm fd rooms op).1 id = some r') :
    r.state.level ≤ r'.state.level ∧ r'.state.level ≤ r.state.level + 1 := by
  rcases step_level_cases dm fd rooms op id r r' hb ha with h | ⟨o, rfl, h⟩ | ⟨p, rfl⟩
  · omega
  · split at h <;> omega
  · simp [notCreateAt] at hnc

theorem step_level_eq (dm fd : Bool) (rooms : Registry) (op : Op) (id : String)
    (r r' : Room) (hnc : notCreateAt id op = true) (hng : notGmStepAt id op = true)
    (hb : findRoom rooms id = some r)
    (ha : findRoom (step dm fd rooms op).1 id = some r') :
    r'.state.level = r.state.level := by
  rcases step_level_cases dm fd rooms op id r r' hb ha with h | ⟨o, rfl, h⟩ | ⟨p, rfl⟩
  · exact h
  · simp [notGmStepAt] at hng
  · simp [notCreateAt] at hnc

theorem presentAlong_head (dm fd : Bool) (id : String) (rooms : Registry)
    (ops : List Op) (h : presentAlong dm fd id rooms ops = true) :
    (findRoom rooms id).isSome = true := by
  cases ops with
  | nil => simpa [presentAlong] using h
  | cons op rest =>
      simp only [presentAlong, Bool.and_eq_true] at h
      exact h.1

theorem runOps_level_mono (dm fd : Bool) (id : String) (ops : List Op) :
    ∀ (rooms : Registry) (r r' : Room),
    ops.all (notCreateAt id) = true →
    presentAlong dm fd id rooms ops = true →
    findRoom rooms id = some r →
    findRoom (runOps dm fd rooms ops) id = some r' →
    r.state.level ≤ r'.state.level := by
  induction ops with
  | nil =>
      intro rooms r r' _ _ hb ha
      simp only [runOps] at ha
      rw [hb] at ha
      exact le_of_eq (congrArg (fun x => x.state.level) (Option.some.inj ha))
  | cons op rest ih =>
      intro rooms r r' hall hpres hb ha
      simp only [List.all_cons, Bool.and_eq_true] at hall
      simp only [presentAlong, Bool.and_eq_true] at hpres
      have hmidsome := presentAlong_head dm fd id _ rest hpres.2
      rcases Option.isSome_iff_exists.mp hmidsome with ⟨rmid, hmid⟩
      have h1 := (step_level_le dm fd rooms op id r rmid hall.1 hb hmid).1
      have h2 := ih (step dm fd rooms op).1 rmid r' hall.2 hpres.2 hmid ha
      omega

/-- Event list of the final draft's GM pass, split by the marker test and the
resulting level. -/
theorem gmNarrationCore_events (st : GameState) (g : String) :
    (gmNarrationCore st g).2 =
      (if hasLevelCompleteCI g then
        [Event.levelComplete (st.level + 1)
          (jsOr ((lookupGoal st.levelGoals (st.level + 1)).getD "")
            "Новая цель будет определена")]
       else []) ++
      (if st.level + (if hasLevelCompleteCI g then 1 else 0) > 5
       then [Event.gameEnd] else [Event.playerTurn 1]) := by
  unfold gmNarrationCore
  by_cases hm : hasLevelCompleteCI g <;> simp only [hm, if_true, if_false] <;>
    (repeat' split) <;> simp_all <;> omega

/-- With no marker hit, the GM pass leaves history as the old history plus the
one appended `GM:` line. -/
theorem gmNarrationCore_history_no_marker (st : GameState) (g : String)
    (h : hasLevelCompleteCI g = false) :
    (gmNarrationCore st g).1.history = st.history ++ ["GM: " ++ g] := by
  unfold gmNarrationCore
  simp only [h, Bool.false_eq_true, if_false]
  split <;> rfl

/-! ### Claim theorems -/

theorem jsSlice_length_le (s : String) (n : Nat) : (jsSlice s n).length ≤ n := by
  show (s.data.take n).length ≤ n
  rw [List.length_take]
  exact Nat.min_le_left _ _

/-- Claim C1: for every room and submitted action, the action is accepted
(processed, with broadcasts) iff the deployment is in debug mode or the
room's current `state.turn` equals the submitter's 1-based seat index in the
players list; a non-accepted action is rejected with the "not your turn"
error event and leaves the room unchanged. -/
theorem c1_action_turn_gate (dm fd : Bool) (room : Room)
    (sid sname ty text : String) (o : Oracle) :
    (isValidTurn dm room sid = false →
       actOnRoomFinal dm fd room sid sname ty text o
         = (room, [Event.error msgNotYourTurn])) ∧
    (isValidTurn dm room sid = true →
       Event.error msgNotYourTurn ∉ (actOnRoomFinal dm fd room sid sname ty text o).2 ∧
       ∃ rest, (actOnRoomFinal dm fd room sid sname ty text o).2
         = Event.sayMessage sname text :: rest) ∧
    (∀ (i : Nat) (h : i < room.players.length),
       (room.players.map (fun q => q.id)).Nodup →
       (room.players.get ⟨i, h⟩).id = sid →
       (isValidTurn dm room sid = true ↔
         (dm = true ∨ room.state.turn = Turn.player (i + 1)))) := by
  refine ⟨?_, ?_, ?_⟩
  · intro hinv
    unfold actOnRoomFinal
    simp [hinv]
  · intro hv
    unfold actOnRoomFinal
    simp only [hv, if_true]
    refine ⟨?_, ⟨_, rfl⟩⟩
    intro hmem
    simp only [List.mem_cons] at hmem
    rcases hmem with h1 | h1 | h1
    · exact Event.noConfusion h1
    · exact Event.noConfusion h1
    · exact nextTurnSync_no_error dm _ msgNotYourTurn h1
  · intro i h hnd hid
    have hseat : seatNumber room sid = i + 1 := by
      unfold seatNumber
      rw [findIdxO_of_get room.players sid i h hnd hid]
    unfold isValidTurn
    rw [hseat]
    simp [Bool.or_eq_true, decide_eq_true_iff]

theorem c1_action_turn_gate_witness :
    (actOnRoomFinal false true
        { players := [alice], state := { initialState with turn := Turn.player 2 } }
        "s1" "Alice" "use" "x" quietOracle
      = ({ players := [alice], state := { initialState with turn := Turn.player 2 } },
         [Event.error msgNotYourTurn])) ∧
    (Event.error msgNotYourTurn ∉
       (actOnRoomFinal false true
         { players := [alice], state := { initialState with turn := Turn.player 1 } }
         "s1" "Alice" "use" "x" quietOracle).2) ∧
    (isValidTurn false { players := [alice], state := { initialState with turn := Turn.player 1 } } "s1" = true ↔
      (false = true ∨
        ({ players := [alice], state := { initialState with turn := Turn.player 1 } } : Room).state.turn
          = Turn.player (0 + 1))) := by
  refine ⟨?_, ?_, ?_⟩
  · exact (c1_action_turn_gate false true _ "s1" "Alice" "use" "x" quietOracle).1 (by decide)
  · exact ((c1_action_turn_gate false true _ "s1" "Alice" "use" "x" quietOracle).2.1 (by decide)).1
  · exact (c1_action_turn_gate false true _ "s1" "Alice" "use" "x" quietOracle).2.2 0 (by decide)
      (by decide) (by decide)

/-- Claim C2 (code bug): the claim says an accepted `say` action is purely a
`sayMessage` chat broadcast with no state change.  The middle draft
(`src/app/index.js`) does behave that way, but the final draft
(`src/unnamed/part_001`) lets `say` fall through into the full game-action
pipeline: it appends two history lines, broadcasts `gmUpdate`, and advances
the turn.  Both behaviours are evaluated here at the same concrete input. -/
theorem c2_say_action_divergence :
    (actOnRoomMid false true
        { players := [alice], state := { initialState with turn := Turn.player 1 } }
        "s1" "Alice" "say" "привет" quietOracle
      = ({ players := [alice], state := { initialState with turn := Turn.player 1 } },
         [Event.sayMessage "Alice" "привет"])) ∧
    (actOnRoomFinal false true
        { players := [alice], state := { initialState with turn := Turn.player 1 } }
        "s1" "Alice" "say" "привет" quietOracle
      = ({ players := [alice],
           state := { level := 1, turn := Turn.gm,
                      history := ["Alice say: привет", "GM: " ++ cannedProgress],
                      levelGoals := [], gameMemory := [], levelMemory := "" } },
         [Event.sayMessage "Alice" "привет",
          Event.gmUpdate cannedProgress "img",
          Event.gmTurn])) := by
  constructor
  · rfl
  · rfl

/-- Claim C5: every path of `getGmResponse` — fast-debug canned, successful
API (truncated), or error fallback — returns at most 250 characters. -/
theorem c5_narration_length_bound (fd isInitial : Bool) (o : Oracle) (st : GameState) :
    ((getGmResponseFull fd isInitial o st).2.1).length ≤ 250 := by
  unfold getGmResponseFull
  split
  · split
    · show cannedInitial.length ≤ 250
      decide
    · show cannedProgress.length ≤ 250
      decide
  · cases hc : o.chatResp with
    | some content =>
        simp only [hc]
        exact jsSlice_length_le content 250
    | none =>
        simp only [hc]
        show gmFallback.length ≤ 250
        decide

/-- Claim C9: with FAST_DEBUG active, `generateImage` always returns the fixed
fallback URL and `getGmResponse` always returns one of exactly two fixed
canned strings (by `isInitial`), with no state change and no outbound network
call, independently of the environment (hence deterministic across runs). -/
theorem c9_fast_debug_determinism :
    (∀ (domain : String) (hfOk : Bool) (now : Nat),
       generateImage true domain hfOk now = (domain ++ "/fallback-image.png", false)) ∧
    (∀ (o : Oracle) (st : GameState),
       getGmResponseFull true true o st = (st, cannedInitial, false) ∧
       getGmResponseFull true false o st = (st, cannedProgress, false)) ∧
    cannedInitial ≠ cannedProgress := by
  refine ⟨fun domain hfOk now => rfl, fun o st => ⟨rfl, rfl⟩, by decide⟩

/-- Claim C3 (amended): in the final draft, a GM narration pass raises
`state.level` by exactly 1 iff the narration contains `'level complete'`
case-insensitively, and no other operation (`create` overwriting the same id
excepted, which installs a brand-new room) ever changes a surviving room's
level, so along any trace in which the room stays registered the level is
non-decreasing and moves in steps of at most 1.  In the earliest draft
(`part_000`) the marker test is case-SENSITIVE, so there a narration carrying
the marker only in a different case does not advance the level. -/
theorem c3_level_monotone_amended :
    (∀ (st : GameState) (g : String),
       (gmNarrationCore st g).1.level
         = st.level + (if hasLevelCompleteCI g then 1 else 0)) ∧
    (∀ (st : GameState) (g img : String),
       (gmNarrationEarly st g img).1.level
         = st.level + (if jsIncludes g "level complete" then 1 else 0)) ∧
    (∀ (dm fd : Bool) (rooms : Registry) (op : Op) (id : String) (r r' : Room),
       notCreateAt id op = true →
       findRoom rooms id = some r →
       findRoom (step dm fd rooms op).1 id = some r' →
       r.state.level ≤ r'.state.level ∧ r'.state.level ≤ r.state.level + 1) ∧
    (∀ (dm fd : Bool) (rooms : Registry) (op : Op) (id : String) (r r' : Room),
       notCreateAt id op = true → notGmStepAt id op = true →
       findRoom rooms id = some r →
       findRoom (step dm fd rooms op).1 id = some r' →
       r'.state.level = r.state.level) ∧
    (∀ (dm fd : Bool) (id : String) (ops : List Op) (rooms : Registry) (r r' : Room),
       ops.all (notCreateAt id) = true →
       presentAlong dm fd id rooms ops = true →
       findRoom rooms id = some r →
       findRoom (runOps dm fd rooms ops) id = some r' →
       r.state.level ≤ r'.state.level) :=
  ⟨gmNarrationCore_level, gmNarrationEarly_level,
   fun dm fd rooms op id r r' hnc hb ha => step_level_le dm fd rooms op id r r' hnc hb ha,
   fun dm fd rooms op id r r' hnc hng hb ha => step_level_eq dm fd rooms op id r r' hnc hng hb ha,
   fun dm fd id ops rooms r r' hall hpres hb ha =>
     runOps_level_mono dm fd id ops rooms r r' hall hpres hb ha⟩

theorem c3_level_monotone_amended_witness :
    ({ players := [alice], state := initialState } : Room).state.level ≤
      ({ players := [alice],
         state := { level := 1, turn := Turn.player 1,
                    history := ["GM: " ++ cannedProgress],
                    levelGoals := [], gameMemory := [], levelMemory := "" } } : Room).state.level ∧
    (gmNarrationCore initialState "LEVEL COMPLETE").1.level = 1 + 1 :=
  ⟨c3_level_monotone_amended.2.2.2.2 true true "r" [Op.gmStep "r" quietOracle]
      [("r", { players := [alice], state := initialState })] _ _
      (by decide) (by decide) (by decide) (by decide),
   by rw [c3_level_monotone_amended.1 initialState "LEVEL COMPLETE"]; decide⟩

/-- Claim C3 counterexample: the earliest draft's GM pass (`part_000`,
case-sensitive `includes`) does NOT advance the level on the narration
"Level Complete", although that narration contains `'level complete'`
case-insensitively, so the claim's universally-quantified case-insensitive
increment fails on that draft. -/
theorem c3_case_sensitive_counterexample :
    hasLevelCompleteCI "Level Complete" = true ∧
    jsIncludes "Level Complete" "level complete" = false ∧
    (gmNarrationEarly initialState "Level Complete" "img").1.level = 1 ∧
    initialState.level = 1 := by
  refine ⟨by decide, by decide, by decide, by decide⟩

/-- Claim C4 (amended): once a GM narration pass leaves `state.level` above 5
it emits `gameEnd` and that pass emits no `playerTurn`/`gmTurn`; in standard
(non-debug) mode every subsequently submitted action is rejected while the
turn rests with the GM, so no further turn events arise from actions — but in
debug mode a submitted action is always accepted and re-emits `gmTurn`, so
the claim's "no turn event is ever emitted afterwards" does not hold there. -/
theorem c4_game_end_amended :
    (∀ (st : GameState) (g : String),
       (gmNarrationCore st g).1.level > 5 →
         Event.gameEnd ∈ (gmNarrationCore st g).2 ∧
         (∀ n, Event.playerTurn n ∉ (gmNarrationCore st g).2) ∧
         Event.gmTurn ∉ (gmNarrationCore st g).2) ∧
    (∀ (fd : Bool) (room : Room) (sid sname ty text : String) (o : Oracle),
       room.state.turn = Turn.gm →
         actOnRoomFinal false fd room sid sname ty text o
           = (room, [Event.error msgNotYourTurn])) ∧
    (∀ (fd : Bool) (room : Room) (sid sname ty text : String) (o : Oracle),
       Event.gmTurn ∈ (actOnRoomFinal true fd room sid sname ty text o).2) := by
  refine ⟨?_, ?_, ?_⟩
  · intro st g hgt
    have hlvl := gmNarrationCore_level st g
    rw [hlvl] at hgt
    rw [gmNarrationCore_events st g]
    rw [if_pos hgt]
    refine ⟨by simp, ?_, ?_⟩
    · intro n
      by_cases hm : hasLevelCompleteCI g <;> simp [hm]
    · by_cases hm : hasLevelCompleteCI g <;> simp [hm]
  · intro fd room sid sname ty text o hturn
    have hv : isValidTurn false room sid = false := by
      unfold isValidTurn
      simp [hturn]
    unfold actOnRoomFinal
    simp [hv]
  · intro fd room sid sname ty text o
    unfold actOnRoomFinal
    simp only [isValidTurn, Bool.true_or, if_true]
    simp [nextTurnSync]

theorem c4_game_end_amended_witness :
    Event.gameEnd ∈
      (gmNarrationCore { initialState with level := 5 } "Level complete!").2 ∧
    actOnRoomFinal false true
        { players := [alice], state := initialState }
        "s1" "Alice" "use" "x" quietOracle
      = ({ players := [alice], state := initialState },
         [Event.error msgNotYourTurn]) ∧
    Event.gmTurn ∈
      (actOnRoomFinal true true { players := [alice], state := { initialState with level := 6 } }
        "s1" "Alice" "use" "x" quietOracle).2 :=
  ⟨(c4_game_end_amended.1 _ "Level complete!" (by decide)).1,
   c4_game_end_amended.2.1 true _ "s1" "Alice" "use" "x" quietOracle rfl,
   c4_game_end_amended.2.2 true _ "s1" "Alice" "use" "x" quietOracle⟩

/-- Claim C4 counterexample: after a pass ends the game (level 6, `gameEnd`
emitted), in debug mode a further submitted action is still accepted and
emits `gmTurn` — contradicting "no playerTurn or gmTurn event is ever emitted
for that room by any subsequent operation". -/
theorem c4_post_end_gmTurn_counterexample :
    (gmNarrationCore { initialState with level := 5 } "level complete").1.level = 6 ∧
    Event.gameEnd ∈ (gmNarrationCore { initialState with level := 5 } "level complete").2 ∧
    Event.gmTurn ∈
      (actOnRoomFinal true true
        { players := [alice],
          state := (gmNarrationCore { initialState with level := 5 } "level complete").1 }
        "s1" "Alice" "use" "attack" quietOracle).2 := by
  refine ⟨by decide, by decide, by decide⟩

/-- Claim C6: joining an existing full room with a new connection is rejected
with "room full" and changes nothing; a join by an already-seated connection
id adds no seat (the seated ids are unchanged); and every operation preserves
the capacity bound `players.length ≤ requiredPlayers`. -/
theorem c6_room_capacity :
    (∀ (dm fd : Bool) (rooms : Registry) (roomId : String) (p : PlayerHandle) (room : Room),
       findRoom rooms roomId = some room →
       room.players.length ≥ requiredPlayers dm →
       room.players.any (fun q => q.id == p.id) = false →
       step dm fd rooms (Op.join roomId p) = (rooms, [Event.error msgRoomFull])) ∧
    (∀ (dm fd : Bool) (rooms : Registry) (roomId : String) (p : PlayerHandle) (room : Room),
       findRoom rooms roomId = some room →
       room.players.any (fun q => q.id == p.id) = true →
       ∃ room', findRoom (step dm fd rooms (Op.join roomId p)).1 roomId = some room' ∧
         room'.players.map (fun q => q.id) = room.players.map (fun q => q.id)) ∧
    (∀ (dm fd : Bool) (rooms : Registry) (op : Op),
       capOk dm rooms → capOk dm (step dm fd rooms op).1) := by
  refine ⟨?_, ?_, fun dm fd rooms op => step_capOk dm fd rooms op⟩
  · intro dm fd rooms roomId p room hf hge hnone
    simp only [step, hf]
    rw [if_pos ⟨hge, hnone⟩]
  · intro dm fd rooms roomId p room hf hany
    simp only [step, hf]
    have hcond : ¬ (room.players.length ≥ requiredPlayers dm ∧
        room.players.any (fun q => q.id == p.id) = false) := by
      rintro ⟨_, hfalse⟩
      rw [hany] at hfalse
      cases hfalse
    rw [if_neg hcond]
    refine ⟨_, findRoom_putRoom_self _ _ _, ?_⟩
    simp only [hany, if_true]
    rw [List.map_map]
    apply List.map_congr_left
    intro q hq
    by_cases h : q.id = p.id <;> simp [h]

theorem c6_room_capacity_witness :
    (step true true [("r", { players := [alice], state := initialState })] (Op.join "r" bob)
      = ([("r", { players := [alice], state := initialState })], [Event.error msgRoomFull])) ∧
    (∃ room', findRoom (step true true [("r", { players := [alice], state := initialState })]
         (Op.join "r" { id := "s1", username := "Alicia" })).1 "r" = some room' ∧
       room'.players.map (fun q => q.id)
         = ({ players := [alice], state := initialState } : Room).players.map (fun q => q.id)) ∧
    capOk true (step true true [("r", { players := [alice], state := initialState })]
      (Op.join "r" bob)).1 :=
  ⟨c6_room_capacity.1 true true [("r", { players := [alice], state := initialState })] "r" bob
      { players := [alice], state := initialState } (by decide) (by decide) (by decide),
   c6_room_capacity.2.1 true true [("r", { players := [alice], state := initialState })] "r"
      { id := "s1", username := "Alicia" }
      { players := [alice], state := initialState } (by decide) (by decide),
   c6_room_capacity.2.2 true true [("r", { players := [alice], state := initialState })]
      (Op.join "r" bob) (by unfold capOk; decide)⟩

/-- Claim C7: a disconnect removes the connection from its room's player list
(exactly one seat, and the id is gone when seats are duplicate-free); the
disconnect of the last seated player deletes the room id from the registry;
and every operation preserves "every registered room has at least one
player". -/
theorem c7_empty_room_cleanup :
    (∀ (dm fd : Bool) (rooms : Registry) (roomId pid : String) (r : Room) (p : PlayerHandle),
       findRoom rooms roomId = some r → r.players = [p] → p.id = pid →
       findRoom (step dm fd rooms (Op.disc roomId pid)).1 roomId = none) ∧
    (∀ (dm fd : Bool) (rooms : Registry) (roomId pid : String) (r : Room),
       findRoom rooms roomId = some r →
       (r.players.map (fun q => q.id)).Nodup →
       pid ∈ r.players.map (fun q => q.id) →
       findRoom (step dm fd rooms (Op.disc roomId pid)).1 roomId = none ∨
         ∃ r', findRoom (step dm fd rooms (Op.disc roomId pid)).1 roomId = some r' ∧
           pid ∉ r'.players.map (fun q => q.id) ∧
           r'.players.length + 1 = r.players.length) ∧
    (∀ (dm fd : Bool) (rooms : Registry) (op : Op),
       nonemptyOk rooms → nonemptyOk (step dm fd rooms op).1) := by
  refine ⟨?_, ?_, fun dm fd rooms op => step_nonemptyOk dm fd rooms op⟩
  · intro dm fd rooms roomId pid r p hf hpl hpid
    have hidx : findIdxO (fun q => q.id == pid) r.players = some 0 := by
      rw [hpl]
      simp [findIdxO, hpid]
    simp only [step, hf, hidx]
    rw [hpl]
    simp only [List.eraseIdx, List.length_nil, gt_iff_lt, Nat.lt_irrefl, if_false]
    exact findRoom_removeRoom_self rooms roomId
  · intro dm fd rooms roomId pid r hf hnd hmem
    rcases findIdxO_of_mem r.players pid hmem with ⟨i, hidx⟩
    rcases eraseIdx_removes r.players pid i hnd hidx with ⟨hnot, hlen⟩
    simp only [step, hf, hidx]
    by_cases hpos : (r.players.eraseIdx i).length > 0
    · right
      rw [if_pos hpos]
      exact ⟨_, findRoom_putRoom_self _ _ _, hnot, hlen⟩
    · left
      rw [if_neg hpos]
      exact findRoom_removeRoom_self rooms roomId

theorem c7_empty_room_cleanup_witness :
    findRoom (step true true [("r", { players := [alice], state := initialState })]
        (Op.disc "r" "s1")).1 "r" = none ∧
    (findRoom (step false false [("r2", { players := [alice, bob], state := initialState })]
         (Op.disc "r2" "s1")).1 "r2" = none ∨
       ∃ r', findRoom (step false false [("r2", { players := [alice, bob], state := initialState })]
           (Op.disc "r2" "s1")).1 "r2" = some r' ∧
         "s1" ∉ r'.players.map (fun q => q.id) ∧
         r'.players.length + 1
           = ({ players := [alice, bob], state := initialState } : Room).players.length) ∧
    nonemptyOk (step false false [("r2", { players := [alice, bob], state := initialState })]
      (Op.disc "r2" "s1")).1 :=
  ⟨c7_empty_room_cleanup.1 true true [("r", { players := [alice], state := initialState })]
      "r" "s1" { players := [alice], state := initialState } alice
      (by decide) (by decide) (by decide),
   c7_empty_room_cleanup.2.1 false false
      [("r2", { players := [alice, bob], state := initialState })] "r2" "s1"
      { players := [alice, bob], state := initialState }
      (by decide) (by decide) (by decide),
   c7_empty_room_cleanup.2.2 false false
      [("r2", { players := [alice, bob], state := initialState })]
      (Op.disc "r2" "s1") (by unfold nonemptyOk; decide)⟩

/-- Claim C8: when `updateGameMemory` runs (non-fast-debug, as in the only
call site) on a room whose `gameMemory` exceeds 3 entries, afterwards
`gameMemory` is exactly one entry carrying the current level and timestamp,
whose summary is the LLM compression, or the fixed fallback (the Russian
literal the spec glosses as "Key events of the journey") when the LLM helper
failed or returned empty. -/
theorem c8_memory_compaction (o : Oracle) (st : GameState)
    (h : st.gameMemory.length > 3) :
    (updateGameMemory false o st).gameMemory =
      [{ level := st.level, summary := jsOr o.compressResp compressFallback,
         timestamp := o.now }] ∧
    (o.compressResp = "" → jsOr o.compressResp compressFallback = compressFallback) ∧
    (o.compressResp ≠ "" → jsOr o.compressResp compressFallback = o.compressResp) := by
  refine ⟨?_, ?_, ?_⟩
  · unfold updateGameMemory
    simp only [Bool.false_eq_true, if_false]
    split <;> split <;> (try split) <;> simp_all [List.length_append] <;> omega
  · intro he
    simp [jsOr, he]
  · intro hne
    simp [jsOr, hne]

theorem c8_memory_compaction_witness :
    (updateGameMemory false quietOracle
        { initialState with gameMemory :=
            [{ level := 1, summary := "a", timestamp := 1 },
             { level := 1, summary := "b", timestamp := 2 },
             { level := 1, summary := "c", timestamp := 3 },
             { level := 1, summary := "d", timestamp := 4 }] }).gameMemory
      = [{ level := 1, summary := jsOr quietOracle.compressResp compressFallback,
           timestamp := 7 }] ∧
    (quietOracle.compressResp = "" →
       jsOr quietOracle.compressResp compressFallback = compressFallback) ∧
    (quietOracle.compressResp ≠ "" →
       jsOr quietOracle.compressResp compressFallback = quietOracle.compressResp) :=
  c8_memory_compaction quietOracle _ (by decide)

/-- Claim C10 (amended): the LLM-failure fallback narration does not contain
`'level complete'` case-insensitively, so a GM pass whose LLM call errored
leaves `state.level` unchanged, leaves history non-empty (never cleared), and
emits no `levelComplete`; provided the game had not already ended
(`state.level ≤ 5`) it emits no `gameEnd` either — but a pass entered with
`state.level > 5` (reachable after game end) re-emits `gameEnd` regardless of
the narration, so the unconditional "no gameEnd" of the claim fails there. -/
theorem c10_fallback_no_marker_amended :
    hasLevelCompleteCI gmFallback = false ∧
    (∀ (o : Oracle) (st : GameState), o.chatResp = none →
       (getGmResponseFull false false o st).2.1 = gmFallback) ∧
    (∀ (st : GameState),
       (gmNarrationCore st gmFallback).1.level = st.level ∧
       (gmNarrationCore st gmFallback).1.history ≠ [] ∧
       (∀ l g, Event.levelComplete l g ∉ (gmNarrationCore st gmFallback).2) ∧
       (st.level ≤ 5 → Event.gameEnd ∉ (gmNarrationCore st gmFallback).2)) := by
  have hno : hasLevelCompleteCI gmFallback = false := by decide
  refine ⟨hno, ?_, ?_⟩
  · intro o st hc
    unfold getGmResponseFull
    simp [hc]
  · intro st
    have hlvl := gmNarrationCore_level st gmFallback
    rw [hno] at hlvl
    have hev := gmNarrationCore_events st gmFallback
    rw [hno] at hev
    simp only [Bool.false_eq_true, if_false, List.nil_append] at hev
    refine ⟨by simpa using hlvl, ?_, ?_, ?_⟩
    · rw [gmNarrationCore_history_no_marker st gmFallback hno]
      simp
    · intro l g
      rw [hev]
      split <;> simp
    · intro h5
      rw [hev]
      rw [if_neg (by omega)]
      simp

theorem c10_fallback_no_marker_amended_witness :
    (getGmResponseFull false false quietOracle initialState).2.1 = gmFallback ∧
    Event.gameEnd ∉ (gmNarrationCore initialState gmFallback).2 :=
  ⟨c10_fallback_no_marker_amended.2.1 quietOracle initialState rfl,
   (c10_fallback_no_marker_amended.2.2 initialState).2.2.2 (by decide)⟩

/-- Claim C10 counterexample: a GM pass entered at level 6 with the
LLM-failure fallback narration still emits `gameEnd`, refuting the claim's
"no gameEnd event is emitted" for every errored pass. -/
theorem c10_gameEnd_on_fallback_counterexample :
    hasLevelCompleteCI gmFallback = false ∧
    Event.gameEnd ∈ (gmNarrationCore { initialState with level := 6 } gmFallback).2 := by
  refine ⟨by decide, by decide⟩

end DungeonGame
